import Mathlib

/-!
Verification of the file parsing and field-mapping pipeline
(server.js / db.js / config.js of the node file-parsing API).

The JavaScript functions are embedded shallowly: records are association
lists from field names to scalar values, JS objects' key-insertion order is
kept by using lists, and JS truthiness is made explicit. Definitions named
`spec...` follow the natural-language specification's words and exist only
to be compared with the definitions taken from the source.
-/

set_option autoImplicit false

namespace Pipeline

/-- A JavaScript-like scalar value as it appears in a parsed record. -/
inductive Value where
  | vNull
  | vStr (s : String)
  | vNum (n : Int)
  | vBool (b : Bool)
  deriving DecidableEq, Repr

/-- JS truthiness: null, the empty string, 0 and false are falsy. -/
def truthy : Value → Bool
  | .vNull => false
  | .vStr s => !(s == "")
  | .vNum n => !(n == 0)
  | .vBool b => b

/-- A raw record parsed from a file: ordered field-name/value pairs. -/
abbrev RawRecord := List (String × Value)

/-- A normalized record: ordered canonical-field/value pairs. -/
abbrev NormalizedRecord := List (String × Value)

/-- A mapping configuration: ordered target-field/alias-list pairs. -/
abbrev MappingConfig := List (String × List String)

/-- JS property read `record[field]`: value of the first matching key. -/
def getKey : List (String × Value) → String → Option Value
  | [], _ => none
  | (k, v) :: rest, q => if k == q then some v else getKey rest q

/-- JS property write `record[field] = v`: update the existing key in
place, or append the key at the end when it is absent. -/
def setKey : List (String × Value) → String → Value → List (String × Value)
  | [], q, v => [(q, v)]
  | (k, w) :: rest, q, v =>
    if k == q then (k, v) :: rest else (k, w) :: setKey rest q v

/-- ASCII whitespace, the part of JS trim that matters here. -/
def asciiWs (c : Char) : Bool :=
  c == ' ' || c == '\t' || c == '\n' || c == '\r'

/-- Drop leading ASCII whitespace from a char list. -/
def dropLeadWs : List Char → List Char
  | [] => []
  | c :: t => if asciiWs c then dropLeadWs t else c :: t

/-- Trim whitespace from both ends of a char list. -/
def trimChars (cs : List Char) : List Char :=
  (dropLeadWs ((dropLeadWs cs).reverse)).reverse

/-- Lower-case every char (ASCII, as all config strings are ASCII). -/
def lowerChars (cs : List Char) : List Char :=
  cs.map Char.toLower

/-- JS `s.toLowerCase()` restricted to ASCII. -/
def toLowerStr (s : String) : String :=
  String.mk (lowerChars s.data)

/-- Whether the first char list starts the second (helper for substring). -/
def leadsChars : List Char → List Char → Bool
  | [], _ => true
  | _ :: _, [] => false
  | a :: as, b :: bs => a == b && leadsChars as bs

/-- Whether the second char list occurs contiguously inside the first. -/
def charsHave : List Char → List Char → Bool
  | [], needle => needle.isEmpty
  | h :: t, needle => leadsChars needle (h :: t) || charsHave t needle

/-- JS `hay.includes(needle)` on strings. -/
def strHas (hay needle : String) : Bool :=
  charsHave hay.toList needle.toList

/-- JS `sourceField.toLowerCase().trim()` (server.js line 53). -/
def lowerTrim (s : String) : String :=
  String.mk (trimChars (lowerChars s.data))

/-- One alias test from server.js lines 58-61: the alias lower-cased
equals the prepared source field name, or is a substring of it. -/
def aliasMatches (sourceFieldLower : String) (a : String) : Bool :=
  toLowerStr a == sourceFieldLower || strHas sourceFieldLower (toLowerStr a)

/-- `possibleSourceFields.some(...)` from server.js lines 58-61. -/
def matchesField (sourceFieldLower : String) (aliases : List String) : Bool :=
  aliases.any fun a => aliasMatches sourceFieldLower a

/-- server.js lines 46-49: initialize every target field to null. -/
def initNulls (mapping : MappingConfig) : NormalizedRecord :=
  mapping.map fun p => (p.1, Value.vNull)

/-- server.js lines 56-65: process one raw entry against every target
field, assigning the raw value to each target field whose alias list
matches the (lower-cased, trimmed) source field name. -/
def applyEntry (mapping : MappingConfig) (acc : NormalizedRecord)
    (sourceField : String) (v : Value) : NormalizedRecord :=
  mapping.foldl
    (fun acc2 p => if matchesField (lowerTrim sourceField) p.2 then setKey acc2 p.1 v else acc2)
    acc

/-- `normalizeRecord` from server.js lines 42-69 (after the mapping has
been resolved from the registry): nulls first, then every raw entry is
processed in record order, overwriting on each match. -/
def normalizeRecord (record : RawRecord) (mapping : MappingConfig) : NormalizedRecord :=
  record.foldl (fun acc p => applyEntry mapping acc p.1 p.2) (initNulls mapping)

/-- The value of the last raw entry whose key matches the alias list, in
record order; none when no entry matches. -/
def lastMatchVal : RawRecord → List String → Option Value
  | [], _ => none
  | (sf, v) :: rest, aliases =>
    match lastMatchVal rest aliases with
    | some w => some w
    | none => if matchesField (lowerTrim sf) aliases then some v else none

/-- The `default` mapping configuration from config.js lines 16-23. -/
def defaultMapping : MappingConfig :=
  [("name", ["name", "full_name", "customer_name", "client_name"]),
   ("address1", ["address", "address1", "street_address", "street"]),
   ("city", ["city", "town"]),
   ("state", ["state", "province", "region"]),
   ("zip", ["zip", "zipcode", "postal_code", "postalcode", "zip_code"]),
   ("authId", ["auth_id", "authid", "authorization_id", "auth", "id"])]

/-- `config.validation.requiredFields` from config.js line 41. -/
def requiredFields : List String :=
  ["name", "authId"]

/-- JS truthiness of `record[field]` (absent reads as undefined, falsy). -/
def recordTruthy (record : NormalizedRecord) (field : String) : Bool :=
  match getKey record field with
  | some v => truthy v
  | none => false

/-- The validity test from server.js lines 190-193:
`config.validation.requiredFields.every(field => record[field])`. -/
def isValidRecord (reqs : List String) (record : NormalizedRecord) : Bool :=
  reqs.all fun f => recordTruthy record f

/-- Modelled on the spec's words for the FieldMapper: for each target
field, scan aliases in list order, then raw keys in record order, and
take the first match. Exists only to compare with `normalizeRecord`. -/
def specFieldValue (record : RawRecord) (aliases : List String) : Option Value :=
  aliases.findSome? fun a =>
    record.findSome? fun p => if aliasMatches (lowerTrim p.1) a then some p.2 else none

/-- Spec-words normalization: first match wins per target field. -/
def specNormalizeRecord (record : RawRecord) (mapping : MappingConfig) : NormalizedRecord :=
  mapping.map fun q => (q.1, (specFieldValue record q.2).getD Value.vNull)

/-- The zip rule of config.js lines 45-48, the pattern for five digits
optionally followed by a dash and four digits. -/
def zipPatternOk (s : String) : Bool :=
  let cs := s.data
  (cs.length == 5 && cs.all Char.isDigit) ||
  (cs.length == 10 && (cs.take 5).all Char.isDigit &&
    (cs.drop 5).headD ' ' == '-' && (cs.drop 6).all Char.isDigit)

/-- The state rule of config.js lines 49-52: at most two characters. -/
def stateMaxLenOk (s : String) : Bool :=
  s.data.length ≤ 2

/-- Spec-words per-value zip check; null passes since the field is absent. -/
def zipValueOk : Value → Bool
  | .vNull => true
  | .vStr s => zipPatternOk s
  | _ => true

/-- Spec-words per-value state check; null passes since the field is absent. -/
def stateValueOk : Value → Bool
  | .vNull => true
  | .vStr s => stateMaxLenOk s
  | _ => true

/-- Spec-words: every configured per-field rule passes for the fields
present in the record (config.js configures rules for zip and state). -/
def specRulesOk (record : NormalizedRecord) : Bool :=
  (match getKey record "zip" with
   | some v => zipValueOk v
   | none => true) &&
  (match getKey record "state" with
   | some v => stateValueOk v
   | none => true)

/-- Spec-words: a value that is neither null nor the empty string. -/
def nonNullNonEmpty : Value → Bool
  | .vNull => false
  | .vStr s => !(s == "")
  | _ => true

/-- Spec-words validator: every required field non-null/non-empty AND
every configured per-field rule passes. Exists only to compare with
`isValidRecord`. -/
def specIsValidRecord (record : NormalizedRecord) : Bool :=
  (requiredFields.all fun f =>
    match getKey record f with
    | some v => nonNullNonEmpty v
    | none => false) &&
  specRulesOk record

/-- The result shape produced by `processFile` (server.js lines 195-200). -/
structure ProcessResult where
  total : Nat
  valid : Nat
  invalid : Nat
  records : List NormalizedRecord

/-- The Map&Validate stage of `processFile` (server.js lines 186-201):
normalize every parsed record, keep the ones whose required fields are
all truthy, and report the counts. -/
def processRecords (records : List RawRecord) (mapping : MappingConfig) : ProcessResult :=
  let normalized := records.map fun r => normalizeRecord r mapping
  let valids := normalized.filter fun r => isValidRecord requiredFields r
  { total := records.length
    valid := valids.length
    invalid := records.length - valids.length
    records := valids }

/-- `saveRecords` of db.js lines 43-84, with the per-record database
outcome supplied as a flag zipped to each record (true means the insert
threw and was caught at lines 69-72; a successful upsert always returns
one row, so it is counted at lines 66-68). The per-record catch keeps
the loop going, so the count is the number of non-failing records. -/
def saveRecordsCount : List (NormalizedRecord × Bool) → Nat
  | [] => 0
  | (_, err) :: rest => (if err then 0 else 1) + saveRecordsCount rest

/-- The summary returned by the upload endpoint (server.js lines 219-227). -/
structure Summary where
  totalRecords : Nat
  validRecords : Nat
  invalidRecords : Nat
  savedRecords : Nat

/-- The Store and Summarize stages of the upload endpoint (server.js
lines 211-227): the valid records go to `saveRecords` and the response
carries the counts; per-record store errors never raise. -/
def uploadSummary (result : ProcessResult) (errs : List Bool) : Summary :=
  { totalRecords := result.total
    validRecords := result.valid
    invalidRecords := result.invalid
    savedRecords := saveRecordsCount (result.records.zip errs) }

/-- Outcome of the mapping-registration endpoint. -/
inductive RegisterOutcome where
  | badRequest (msg : String)
  | created (registry : List (String × MappingConfig)) (name : String)
  deriving DecidableEq, Repr

/-- JS object write `fieldMappings[name] = mappings`. -/
def setConfig : List (String × MappingConfig) → String → MappingConfig →
    List (String × MappingConfig)
  | [], q, m => [(q, m)]
  | (k, w) :: rest, q, m =>
    if k == q then (k, m) :: rest else (k, w) :: setConfig rest q m

/-- The registration endpoint (server.js lines 235-244): reject with 400
when name or mappings is falsy in the body, otherwise store the config
under the name and answer 201. The body's mappings field is `none` when
absent; a present JS object is always truthy. -/
def registerMapping (registry : List (String × MappingConfig)) (name : String)
    (body : Option MappingConfig) : RegisterOutcome :=
  match body with
  | none => .badRequest "Name and mappings are required"
  | some m =>
    if name == "" then .badRequest "Name and mappings are required"
    else .created (setConfig registry name m) name

/-- Spec-words registration validity: no target field in the
required-fields set has an empty alias list. -/
def specConfigOk (m : MappingConfig) : Bool :=
  m.all fun q => !(requiredFields.contains q.1) || !q.2.isEmpty

/-- A parsed JSON document, as `JSON.parse` would deliver it. -/
inductive JsonVal where
  | jNull
  | jBool (b : Bool)
  | jNum (n : Int)
  | jStr (s : String)
  | jArr (elems : List JsonVal)
  | jObj (fields : List (String × JsonVal))

/-- Whether a JSON value is an object. -/
def isObjB : JsonVal → Bool
  | .jObj _ => true
  | _ => false

/-- Whether an Except result is a success. -/
def isOkB {ε α : Type} : Except ε α → Bool
  | .ok _ => true
  | .error _ => false

/-- `parseJSON` of server.js lines 104-121 after reading the file: the
argument is `none` when `JSON.parse` threw on malformed text, otherwise
the parsed root. The root is returned as is when it is an array and is
wrapped in a one-element array otherwise (line 114). -/
def parseJSON (parsed : Option JsonVal) : Except String (List JsonVal) :=
  match parsed with
  | none => .error "ParseError"
  | some (.jArr es) => .ok es
  | some j => .ok [j]

/-- Spec-words JSON contract: object root wraps to one element, an array
root must hold objects, any other root shape is a ParseError. Exists
only to compare with `parseJSON`. -/
def specParseJSON (parsed : Option JsonVal) : Except String (List JsonVal) :=
  match parsed with
  | none => .error "ParseError"
  | some (.jObj fs) => .ok [.jObj fs]
  | some (.jArr es) => if es.all isObjB then .ok es else .error "ParseError"
  | some _ => .error "ParseError"

/-- JS `data.split('\n')[0]`: the chars before the first newline. -/
def firstLineChars (cs : List Char) : List Char :=
  cs.takeWhile fun c => !(c == '\n')

/-- The delimiter pick of `parseText` (server.js lines 133-138): start
from tab and switch to comma only when the first line has a comma and no
tab. -/
def textDelimiter (data : String) : Char :=
  let firstLine := firstLineChars data.data
  if firstLine.contains ',' && !(firstLine.contains '\t') then ',' else '\t'

/-- Spec-words delimiter pick: prefer tab if present in the header line,
else comma. Exists only to compare with `textDelimiter`. -/
def specTextDelimiter (data : String) : Char :=
  let firstLine := firstLineChars data.data
  if firstLine.contains '\t' then '\t' else ','

/-- The file format kinds of server.js lines 24-39. -/
inductive FileType where
  | csv
  | excel
  | json
  | text
  | unknown
  deriving DecidableEq, Repr

/-- The chars of the basename: everything after the last slash. -/
def baseNameChars (cs : List Char) : List Char :=
  (cs.reverse.takeWhile fun c => !(c == '/')).reverse

/-- Node's `path.extname` on the basename chars: the chars from the last
dot to the end; empty when there is no dot or the only leading char is a
dot. -/
def extChars (base : List Char) : List Char :=
  let rev := base.reverse
  let afterDot := rev.takeWhile fun c => !(c == '.')
  if afterDot.length == rev.length then []
  else if afterDot.length + 1 == rev.length then []
  else '.' :: afterDot.reverse

/-- `path.extname(filename)` as used in server.js line 25. -/
def extname (filename : String) : String :=
  String.mk (extChars (baseNameChars filename.data))

/-- `detectFileType` of server.js lines 24-39: switch on the lower-cased
extension. -/
def detectFileType (filename : String) : FileType :=
  let ext := toLowerStr (extname filename)
  if ext == ".csv" then .csv
  else if ext == ".xlsx" || ext == ".xls" then .excel
  else if ext == ".json" then .json
  else if ext == ".txt" then .text
  else .unknown

/-- The dispatch at the top of `processFile` (server.js lines 166-184):
an unknown type throws before any parsing, otherwise the matching parser
runs. -/
def processFileDispatch (filename : String) : Except String FileType :=
  match detectFileType filename with
  | .unknown => .error "Unsupported file type: unknown"
  | ft => .ok ft

/-! ### Helper lemmas about records and normalization -/

theorem getKey_setKey_self (l : List (String × Value)) (k : String) (v : Value) :
    getKey (setKey l k v) k = some v := by
  induction l with
  | nil => simp [setKey, getKey]
  | cons p rest ih =>
    obtain ⟨k', w⟩ := p
    by_cases h : k' = k
    · simp [setKey, getKey, h]
    · simp [setKey, getKey, h, ih]

theorem getKey_setKey_ne (l : List (String × Value)) (k q : String) (v : Value)
    (h : k ≠ q) : getKey (setKey l k v) q = getKey l q := by
  induction l with
  | nil => simp [setKey, getKey, h]
  | cons p rest ih =>
    obtain ⟨k', w⟩ := p
    by_cases h2 : k' = k
    · simp [setKey, getKey, h2, h]
    · simp [setKey, getKey, h2, ih]

theorem keys_setKey (l : List (String × Value)) (k : String) (v : Value)
    (h : k ∈ l.map Prod.fst) : (setKey l k v).map Prod.fst = l.map Prod.fst := by
  induction l with
  | nil => simp at h
  | cons p rest ih =>
    obtain ⟨k', w⟩ := p
    by_cases h2 : k' = k
    · simp [setKey, h2]
    · simp only [List.map_cons, List.mem_cons] at h
      rcases h with h | h
      · exact absurd h.symm h2
      · simp [setKey, h2, ih h]

theorem keys_applyEntry (mapping : MappingConfig) (acc : NormalizedRecord)
    (sf : String) (v : Value)
    (h : ∀ x ∈ mapping.map Prod.fst, x ∈ acc.map Prod.fst) :
    (applyEntry mapping acc sf v).map Prod.fst = acc.map Prod.fst := by
  induction mapping generalizing acc with
  | nil => simp [applyEntry]
  | cons q rest ih =>
    obtain ⟨tf, als⟩ := q
    have htf : tf ∈ acc.map Prod.fst := h tf (by simp)
    by_cases hm : matchesField (lowerTrim sf) als = true
    · have hkeys : (setKey acc tf v).map Prod.fst = acc.map Prod.fst :=
        keys_setKey acc tf v htf
      have := ih (setKey acc tf v) (fun x hx => by
        rw [hkeys]; exact h x (by simp [hx]))
      simp only [applyEntry, List.foldl_cons, hm, if_true] at this ⊢
      rw [this, hkeys]
    · have := ih acc (fun x hx => h x (by simp [hx]))
      simp only [applyEntry, List.foldl_cons, hm, if_false] at this ⊢
      simpa [hm] using this

theorem keys_initNulls (mapping : MappingConfig) :
    (initNulls mapping).map Prod.fst = mapping.map Prod.fst := by
  simp [initNulls, List.map_map, Function.comp]

theorem keys_normalize_fold (mapping : MappingConfig) :
    ∀ (record : RawRecord) (acc : NormalizedRecord),
      acc.map Prod.fst = mapping.map Prod.fst →
      ((record.foldl (fun a p => applyEntry mapping a p.1 p.2) acc).map Prod.fst
        = mapping.map Prod.fst)
  | [], acc, h => h
  | (sf, v) :: rest, acc, h => by
    have hstep : (applyEntry mapping acc sf v).map Prod.fst = acc.map Prod.fst :=
      keys_applyEntry mapping acc sf v (fun x hx => by rw [h]; exact hx)
    exact keys_normalize_fold mapping rest (applyEntry mapping acc sf v) (hstep.trans h)

theorem keys_normalizeRecord (record : RawRecord) (mapping : MappingConfig) :
    (normalizeRecord record mapping).map Prod.fst = mapping.map Prod.fst :=
  keys_normalize_fold mapping record (initNulls mapping) (keys_initNulls mapping)

theorem getKey_initNulls (mapping : MappingConfig) (t : String)
    (h : t ∈ mapping.map Prod.fst) :
    getKey (initNulls mapping) t = some Value.vNull := by
  induction mapping with
  | nil => simp at h
  | cons q rest ih =>
    obtain ⟨k, als⟩ := q
    by_cases h2 : k = t
    · simp [initNulls, getKey, h2]
    · simp only [List.map_cons, List.mem_cons] at h
      rcases h with h | h
      · exact absurd h.symm h2
      · simpa [initNulls, getKey, h2] using ih h

theorem getKey_applyEntry_notMem (mapping : MappingConfig) (acc : NormalizedRecord)
    (sf : String) (v : Value) (t : String) (h : t ∉ mapping.map Prod.fst) :
    getKey (applyEntry mapping acc sf v) t = getKey acc t := by
  induction mapping generalizing acc with
  | nil => simp [applyEntry]
  | cons q rest ih =>
    obtain ⟨tf, als⟩ := q
    have htf : tf ≠ t := fun he => h (by simp [he])
    have hrest : t ∉ rest.map Prod.fst := fun he => h (by simp [he])
    by_cases hm : matchesField (lowerTrim sf) als = true
    · have := ih (setKey acc tf v) hrest
      simp only [applyEntry, List.foldl_cons, hm, if_true] at this ⊢
      rw [this, getKey_setKey_ne acc tf t v htf]
    · have := ih acc hrest
      simp only [applyEntry, List.foldl_cons, hm, if_false] at this ⊢
      simpa [hm] using this

theorem getKey_applyEntry (mapping : MappingConfig) (acc : NormalizedRecord)
    (sf : String) (v : Value) (t : String) (aliases : List String)
    (hmem : (t, aliases) ∈ mapping) (hnd : (mapping.map Prod.fst).Nodup) :
    getKey (applyEntry mapping acc sf v) t =
      if matchesField (lowerTrim sf) aliases = true then some v else getKey acc t := by
  induction mapping generalizing acc with
  | nil => simp at hmem
  | cons q rest ih =>
    obtain ⟨tf, als⟩ := q
    simp only [List.map_cons, List.nodup_cons] at hnd
    by_cases h2 : tf = t
    · subst h2
      have hals : als = aliases := by
        rcases List.mem_cons.mp hmem with h | h
        · exact (congrArg Prod.snd h).symm
        · exact absurd (List.mem_map_of_mem Prod.fst h) hnd.1
      subst hals
      by_cases hm : matchesField (lowerTrim sf) als = true
      · simp only [applyEntry, List.foldl_cons, hm, if_true]
        have := getKey_applyEntry_notMem rest (setKey acc tf v) sf v tf hnd.1
        simp only [applyEntry] at this
        rw [this, getKey_setKey_self]
      · simp only [applyEntry, List.foldl_cons, hm, if_false]
        have := getKey_applyEntry_notMem rest acc sf v tf hnd.1
        simp only [applyEntry] at this
        simpa [hm] using this
    · have hmem2 : (t, aliases) ∈ rest := by
        rcases List.mem_cons.mp hmem with h | h
        · exact absurd (congrArg Prod.fst h).symm h2
        · exact h
      by_cases hm : matchesField (lowerTrim sf) als = true
      · have := ih (setKey acc tf v) hmem2 hnd.2
        simp only [applyEntry, List.foldl_cons, hm, if_true] at this ⊢
        rw [this, getKey_setKey_ne acc tf t v h2]
      · have := ih acc hmem2 hnd.2
        simp only [applyEntry, List.foldl_cons, hm, if_false] at this ⊢
        simpa [hm] using this

theorem getKey_normalize_fold (mapping : MappingConfig) (t : String)
    (aliases : List String) (hmem : (t, aliases) ∈ mapping)
    (hnd : (mapping.map Prod.fst).Nodup) :
    ∀ (record : RawRecord) (acc : NormalizedRecord),
      getKey (record.foldl (fun a p => applyEntry mapping a p.1 p.2) acc) t =
        match lastMatchVal record aliases with
        | some w => some w
        | none => getKey acc t
  | [], acc => by simp [lastMatchVal]
  | (sf, v) :: rest, acc => by
    have hstep := getKey_applyEntry mapping acc sf v t aliases hmem hnd
    have ih := getKey_normalize_fold mapping t aliases hmem hnd rest
      (applyEntry mapping acc sf v)
    simp only [List.foldl_cons] at ih ⊢
    rw [ih]
    cases hrest : lastMatchVal rest aliases with
    | some w => simp [lastMatchVal, hrest]
    | none =>
      by_cases hm : matchesField (lowerTrim sf) aliases = true
      · simp [lastMatchVal, hrest, hm, hstep]
      · simp [lastMatchVal, hrest, hm, hstep]

theorem lastMatchVal_none (record : RawRecord) (aliases : List String)
    (h : record.all (fun p => !matchesField (lowerTrim p.1) aliases) = true) :
    lastMatchVal record aliases = none := by
  induction record with
  | nil => rfl
  | cons p rest ih =>
    obtain ⟨sf, v⟩ := p
    simp only [List.all_cons, Bool.and_eq_true, Bool.not_eq_true'] at h
    rw [lastMatchVal, ih h.2, h.1]
    simp

/-! ### Claim C1: tie-breaking of the field mapper -/

/-- C1 counterexample: normalization and the spec's first-match rule
disagree on the record with keys name and full_name, both matching the
target field name: the code keeps the value of the later key full_name
while the first-match scan keeps the value of the earlier key name. -/
theorem c1_counterexample :
    normalizeRecord [("name", Value.vStr "A"), ("full_name", Value.vStr "B")]
        [("name", ["name", "full_name"])] ≠
      specNormalizeRecord [("name", Value.vStr "A"), ("full_name", Value.vStr "B")]
        [("name", ["name", "full_name"])] := by
  decide

/-- C1 amended: for every RawRecord and MappingConfig with distinct
target fields, the value assigned to a target field is the value of the
last raw entry, in RawRecord key order, whose key matches the field's
alias list; later matches overwrite earlier ones and alias-list order
plays no tie-breaking role; the field stays null when nothing matches. -/
theorem c1_theorem (record : RawRecord) (mapping : MappingConfig) (t : String)
    (aliases : List String) (hmem : (t, aliases) ∈ mapping)
    (hnd : (mapping.map Prod.fst).Nodup) :
    getKey (normalizeRecord record mapping) t =
      match lastMatchVal record aliases with
      | some w => some w
      | none => some Value.vNull := by
  rw [normalizeRecord,
    getKey_normalize_fold mapping t aliases hmem hnd record (initNulls mapping)]
  cases h : lastMatchVal record aliases with
  | some w => rfl
  | none => simp [getKey_initNulls mapping t (List.mem_map_of_mem Prod.fst hmem)]

/-- C1 witness: on the two-key record the assigned value is the one of
the later matching key. -/
theorem c1_witness :
    getKey (normalizeRecord [("name", Value.vStr "A"), ("full_name", Value.vStr "B")]
      defaultMapping) "name" = some (Value.vStr "B") := by
  have h := c1_theorem [("name", Value.vStr "A"), ("full_name", Value.vStr "B")]
    defaultMapping "name" ["name", "full_name", "customer_name", "client_name"]
    (by decide) (by decide)
  exact h.trans (by decide)

/-! ### Claim C5: valid plus invalid equals total -/

/-- C5: for every sequence of parsed RawRecords, after the Map&Validate
stage the reported counts satisfy valid + invalid = total. -/
theorem c5_theorem (records : List RawRecord) (mapping : MappingConfig) :
    (processRecords records mapping).valid + (processRecords records mapping).invalid
      = (processRecords records mapping).total := by
  simp only [processRecords]
  have hle : ((records.map fun r => normalizeRecord r mapping).filter
      (fun r => isValidRecord requiredFields r)).length ≤ records.length := by
    calc ((records.map fun r => normalizeRecord r mapping).filter
          (fun r => isValidRecord requiredFields r)).length
        ≤ (records.map fun r => normalizeRecord r mapping).length :=
          List.length_filter_le _ _
      _ = records.length := List.length_map _ _
  omega

/-! ### Claim C6: normalized records carry exactly the target fields -/

/-- C6: for every RawRecord and every MappingConfig with distinct target
fields, normalize returns a record whose key sequence equals exactly the
config's target fields — no extras, no omissions — and every target
field matched by no raw key is explicitly null. -/
theorem c6_theorem (record : RawRecord) (mapping : MappingConfig)
    (hnd : (mapping.map Prod.fst).Nodup) :
    (normalizeRecord record mapping).map Prod.fst = mapping.map Prod.fst
    ∧ ∀ t aliases, (t, aliases) ∈ mapping →
        record.all (fun p => !matchesField (lowerTrim p.1) aliases) = true →
        getKey (normalizeRecord record mapping) t = some Value.vNull := by
  refine ⟨keys_normalizeRecord record mapping, fun t aliases hmem hun => ?_⟩
  rw [normalizeRecord,
    getKey_normalize_fold mapping t aliases hmem hnd record (initNulls mapping)]
  simp [lastMatchVal_none record aliases hun,
    getKey_initNulls mapping t (List.mem_map_of_mem Prod.fst hmem)]

/-- C6 witness: a record with no city-like key normalizes to the default
mapping's key sequence with city still null. -/
theorem c6_witness :
    (normalizeRecord [("full_name", Value.vStr "Ann"), ("auth_id", Value.vStr "A1")]
        defaultMapping).map Prod.fst = defaultMapping.map Prod.fst
    ∧ getKey (normalizeRecord [("full_name", Value.vStr "Ann"), ("auth_id", Value.vStr "A1")]
        defaultMapping) "city" = some Value.vNull :=
  ⟨(c6_theorem [("full_name", Value.vStr "Ann"), ("auth_id", Value.vStr "A1")]
      defaultMapping (by decide)).1,
   (c6_theorem [("full_name", Value.vStr "Ann"), ("auth_id", Value.vStr "A1")]
      defaultMapping (by decide)).2 "city" ["city", "town"] (by decide) (by decide)⟩

/-! ### Claim C2: what the validator checks -/

/-- C2 counterexample: a record whose required fields are fine but whose
zip value violates the configured zip pattern is still classified valid
by the code, while the spec's validator rejects it: the configured
per-field rules are never applied. -/
theorem c2_counterexample :
    isValidRecord requiredFields
        [("name", Value.vStr "Ann"), ("address1", Value.vNull), ("city", Value.vNull),
         ("state", Value.vNull), ("zip", Value.vStr "abc"), ("authId", Value.vStr "A1")] = true
    ∧ specRulesOk
        [("name", Value.vStr "Ann"), ("address1", Value.vNull), ("city", Value.vNull),
         ("state", Value.vNull), ("zip", Value.vStr "abc"), ("authId", Value.vStr "A1")] = false
    ∧ specIsValidRecord
        [("name", Value.vStr "Ann"), ("address1", Value.vNull), ("city", Value.vNull),
         ("state", Value.vNull), ("zip", Value.vStr "abc"), ("authId", Value.vStr "A1")] = false := by
  decide

/-- C2 amended: the validator classifies a record as valid iff every
required field holds a truthy value; the configured per-field rules such
as the zip pattern and the state max length are never consulted. -/
theorem c2_theorem (record : NormalizedRecord) :
    isValidRecord requiredFields record = true ↔
      ∀ f ∈ requiredFields, ∃ v, getKey record f = some v ∧ truthy v = true := by
  simp only [isValidRecord, List.all_eq_true, recordTruthy]
  constructor
  · intro h f hf
    have hv := h f hf
    cases hg : getKey record f with
    | none => rw [hg] at hv; simp at hv
    | some v =>
      refine ⟨v, rfl, ?_⟩
      rw [hg] at hv
      exact hv
  · intro h f hf
    obtain ⟨v, hg, ht⟩ := h f hf
    rw [hg]
    exact ht

/-! ### Claim C3: what mapping registration rejects -/

/-- C3 counterexample: a config whose required target fields name and
authId both carry empty alias lists is invalid by the spec's rule, yet
registration accepts it and stores it in the registry. -/
theorem c3_counterexample :
    specConfigOk [("name", []), ("authId", [])] = false
    ∧ registerMapping [] "v9" (some [("name", []), ("authId", [])]) =
        RegisterOutcome.created [("v9", [("name", []), ("authId", [])])] "v9" := by
  decide

/-- C3 amended: registration fails only when the name or the mappings
field of the body is missing or empty; no alias-list validation happens,
so every config — required fields with empty alias lists included — is
registered under a non-empty name. -/
theorem c3_theorem (registry : List (String × MappingConfig)) (name : String)
    (m : MappingConfig) (h : name ≠ "") :
    registerMapping registry name (some m) =
        RegisterOutcome.created (setConfig registry name m) name
    ∧ registerMapping registry name none =
        RegisterOutcome.badRequest "Name and mappings are required" := by
  refine ⟨?_, rfl⟩
  simp [registerMapping, h]

/-- C3 witness: a config with an empty alias list for the required field
name registers successfully. -/
theorem c3_witness :
    registerMapping [] "v2" (some [("name", [])]) =
        RegisterOutcome.created (setConfig [] "v2" [("name", [])]) "v2"
    ∧ registerMapping [] "v2" none =
        RegisterOutcome.badRequest "Name and mappings are required" :=
  c3_theorem [] "v2" [("name", [])] (by decide)

/-! ### Claim C4: per-record store failures and the final counts -/

theorem saveRecordsCount_eq : ∀ (l : List NormalizedRecord) (errs : List Bool),
    errs.length = l.length →
    saveRecordsCount (l.zip errs) = l.length - errs.countP (fun b => b)
  | [], [], _ => rfl
  | [], _ :: _, h => by simp at h
  | _ :: _, [], h => by simp at h
  | r :: rs, e :: es, h => by
    have h2 : es.length = rs.length := by simpa using h
    have ih := saveRecordsCount_eq rs es h2
    have hle : es.countP (fun b => b) ≤ es.length := List.countP_le_length _
    rw [List.zip_cons_cons]
    cases e with
    | true =>
      show 0 + saveRecordsCount (rs.zip es)
        = (r :: rs).length - (true :: es).countP (fun b => b)
      rw [ih, List.countP_cons_of_pos _ _ rfl, List.length_cons]
      omega
    | false =>
      show 1 + saveRecordsCount (rs.zip es)
        = (r :: rs).length - (false :: es).countP (fun b => b)
      rw [ih, List.countP_cons_of_neg _ _ (by decide), List.length_cons]
      omega

/-- C4: per-record store failures do not abort the batch: the run yields
a summary whose stored count equals the valid count minus the number of
per-record store errors, so stored is at most valid, with equality when
the store reports zero errors. -/
theorem c4_theorem (records : List RawRecord) (mapping : MappingConfig)
    (errs : List Bool)
    (h : errs.length = (processRecords records mapping).records.length) :
    (uploadSummary (processRecords records mapping) errs).savedRecords
        = (processRecords records mapping).valid - errs.countP (fun b => b)
    ∧ (uploadSummary (processRecords records mapping) errs).savedRecords
        ≤ (processRecords records mapping).valid
    ∧ (errs.countP (fun b => b) = 0 →
        (uploadSummary (processRecords records mapping) errs).savedRecords
          = (processRecords records mapping).valid) := by
  have hv : (processRecords records mapping).valid
      = (processRecords records mapping).records.length := rfl
  have hs : (uploadSummary (processRecords records mapping) errs).savedRecords
      = (processRecords records mapping).records.length - errs.countP (fun b => b) :=
    saveRecordsCount_eq (processRecords records mapping).records errs h
  refine ⟨by rw [hs, hv], by rw [hs, hv]; omega, fun h0 => by rw [hs, hv, h0]; omega⟩

/-- C4 witness: the spec scenario of a batch of three valid records with
one per-record store error stores exactly two records. -/
theorem c4_witness :
    (uploadSummary (processRecords
        [[("name", Value.vStr "x"), ("auth_id", Value.vStr "1")],
         [("name", Value.vStr "y"), ("auth_id", Value.vStr "2")],
         [("name", Value.vStr "z"), ("auth_id", Value.vStr "3")]]
        [("name", ["name"]), ("authId", ["auth_id"])])
      [false, true, false]).savedRecords = 2 := by
  have h := c4_theorem
    [[("name", Value.vStr "x"), ("auth_id", Value.vStr "1")],
     [("name", Value.vStr "y"), ("auth_id", Value.vStr "2")],
     [("name", Value.vStr "z"), ("auth_id", Value.vStr "3")]]
    [("name", ["name"]), ("authId", ["auth_id"])]
    [false, true, false] (by decide)
  exact h.1.trans (by decide)

/-! ### Claim C7: the JSON root contract -/

/-- C7 counterexample: a well-formed document whose root is the string x
is accepted by the code, which wraps it as a one-element sequence, while
the spec's contract reports a ParseError for a non-object non-array
root. -/
theorem c7_counterexample :
    parseJSON (some (JsonVal.jStr "x")) = Except.ok [JsonVal.jStr "x"]
    ∧ specParseJSON (some (JsonVal.jStr "x")) = Except.error "ParseError" :=
  ⟨rfl, rfl⟩

/-- C7 amended: the JSON parser fails only on syntactically malformed
input; every well-formed root is accepted — an array root yields its
element sequence whatever the elements are, and any other root shape,
object, string, number, boolean or null, is wrapped as a one-element
sequence. -/
theorem c7_theorem :
    (∀ p : Option JsonVal, isOkB (parseJSON p) = p.isSome)
    ∧ (∀ es, parseJSON (some (JsonVal.jArr es)) = Except.ok es)
    ∧ (∀ fs, parseJSON (some (JsonVal.jObj fs)) = Except.ok [JsonVal.jObj fs])
    ∧ (∀ s, parseJSON (some (JsonVal.jStr s)) = Except.ok [JsonVal.jStr s])
    ∧ (∀ n, parseJSON (some (JsonVal.jNum n)) = Except.ok [JsonVal.jNum n])
    ∧ (∀ b, parseJSON (some (JsonVal.jBool b)) = Except.ok [JsonVal.jBool b])
    ∧ parseJSON (some JsonVal.jNull) = Except.ok [JsonVal.jNull]
    ∧ parseJSON none = Except.error "ParseError" := by
  refine ⟨fun p => ?_, fun es => rfl, fun fs => rfl, fun s => rfl,
    fun n => rfl, fun b => rfl, rfl, rfl⟩
  cases p with
  | none => rfl
  | some j => cases j <;> rfl

/-! ### Claim C8: the text delimiter pick -/

/-- C8 counterexample: a header line with neither a tab nor a comma gets
tab as delimiter in the code, while the spec's rule picks comma whenever
no tab is present. -/
theorem c8_counterexample :
    textDelimiter "abc" = '\t' ∧ specTextDelimiter "abc" = ',' := by
  decide

/-- C8 amended: the parser picks comma exactly when the header line
contains a comma and no tab; in every other case, a tab being present or
neither character being present, the delimiter is tab. -/
theorem c8_theorem (data : String) :
    (textDelimiter data = ',' ↔
      ((firstLineChars data.data).contains ',' = true
        ∧ (firstLineChars data.data).contains '\t' = false))
    ∧ (textDelimiter data = '\t' ↔
      ¬((firstLineChars data.data).contains ',' = true
        ∧ (firstLineChars data.data).contains '\t' = false)) := by
  cases hc : (firstLineChars data.data).contains ',' <;>
    cases ht : (firstLineChars data.data).contains '\t' <;>
      (simp only [textDelimiter, hc, ht]; decide)

/-! ### Claim C9: format detection and the unsupported-format failure -/

/-- C9: detect maps the lower-cased extension to csv, excel, json or
text exactly as listed, anything else is unknown, and an unknown type
makes the run throw before any parsing, so no result is produced; a pdf
file is a concrete instance. -/
theorem c9_theorem (filename : String) :
    (detectFileType filename = FileType.csv ↔ toLowerStr (extname filename) = ".csv")
    ∧ (detectFileType filename = FileType.excel ↔
        (toLowerStr (extname filename) = ".xlsx" ∨ toLowerStr (extname filename) = ".xls"))
    ∧ (detectFileType filename = FileType.json ↔ toLowerStr (extname filename) = ".json")
    ∧ (detectFileType filename = FileType.text ↔ toLowerStr (extname filename) = ".txt")
    ∧ (detectFileType filename = FileType.unknown ↔
        ¬(toLowerStr (extname filename) = ".csv" ∨ toLowerStr (extname filename) = ".xlsx"
          ∨ toLowerStr (extname filename) = ".xls" ∨ toLowerStr (extname filename) = ".json"
          ∨ toLowerStr (extname filename) = ".txt"))
    ∧ (processFileDispatch filename = Except.error "Unsupported file type: unknown" ↔
        detectFileType filename = FileType.unknown)
    ∧ processFileDispatch "report.pdf" = Except.error "Unsupported file type: unknown" := by
  have hmain : (detectFileType filename = FileType.csv ↔
        toLowerStr (extname filename) = ".csv")
      ∧ (detectFileType filename = FileType.excel ↔
          (toLowerStr (extname filename) = ".xlsx" ∨ toLowerStr (extname filename) = ".xls"))
      ∧ (detectFileType filename = FileType.json ↔ toLowerStr (extname filename) = ".json")
      ∧ (detectFileType filename = FileType.text ↔ toLowerStr (extname filename) = ".txt")
      ∧ (detectFileType filename = FileType.unknown ↔
          ¬(toLowerStr (extname filename) = ".csv" ∨ toLowerStr (extname filename) = ".xlsx"
            ∨ toLowerStr (extname filename) = ".xls" ∨ toLowerStr (extname filename) = ".json"
            ∨ toLowerStr (extname filename) = ".txt"))
      ∧ (processFileDispatch filename = Except.error "Unsupported file type: unknown" ↔
          detectFileType filename = FileType.unknown) := by
    by_cases h1 : toLowerStr (extname filename) = ".csv"
    · simp [detectFileType, processFileDispatch, h1]
    · by_cases h2 : toLowerStr (extname filename) = ".xlsx"
      · simp [detectFileType, processFileDispatch, h1, h2]
      · by_cases h3 : toLowerStr (extname filename) = ".xls"
        · simp [detectFileType, processFileDispatch, h1, h2, h3]
        · by_cases h4 : toLowerStr (extname filename) = ".json"
          · simp [detectFileType, processFileDispatch, h1, h2, h3, h4]
          · by_cases h5 : toLowerStr (extname filename) = ".txt"
            · simp [detectFileType, processFileDispatch, h1, h2, h3, h4, h5]
            · simp [detectFileType, processFileDispatch, h1, h2, h3, h4, h5]
  exact ⟨hmain.1, hmain.2.1, hmain.2.2.1, hmain.2.2.2.1, hmain.2.2.2.2.1,
    hmain.2.2.2.2.2, rfl⟩

/-! ### Claim C10: the required-field test is a truthiness test -/

theorem invalid_of_falsy (reqs : List String) (record : NormalizedRecord)
    (f : String) (v : Value) (hf : f ∈ reqs) (hv : truthy v = false)
    (hget : getKey record f = some v) : isValidRecord reqs record = false := by
  have hft : recordTruthy record f = false := by
    rw [recordTruthy, hget]
    exact hv
  rw [isValidRecord]
  refine Bool.eq_false_iff.mpr fun hall => ?_
  have hres := List.all_eq_true.mp hall f hf
  rw [hft] at hres
  exact Bool.false_ne_true hres

/-- C10: the required-field check is a truthiness test: a record whose
required field holds any falsy value — the empty string, the number 0,
false, or null — is classified invalid, exactly as when the field is set
to null; and those values are indeed all falsy. -/
theorem c10_theorem (reqs : List String) (record : NormalizedRecord)
    (f : String) (v : Value) (hf : f ∈ reqs) (hv : truthy v = false)
    (hget : getKey record f = some v) :
    isValidRecord reqs record = false
    ∧ isValidRecord reqs (setKey record f Value.vNull) = false
    ∧ truthy (Value.vStr "") = false ∧ truthy (Value.vNum 0) = false
    ∧ truthy (Value.vBool false) = false ∧ truthy Value.vNull = false :=
  ⟨invalid_of_falsy reqs record f v hf hv hget,
   invalid_of_falsy reqs (setKey record f Value.vNull) f Value.vNull hf rfl
     (getKey_setKey_self record f Value.vNull),
   by decide, by decide, by decide, by decide⟩

/-- C10 witness: a record whose required field authId holds the number 0
is invalid, exactly as with null. -/
theorem c10_witness :
    isValidRecord requiredFields
        [("name", Value.vStr "Bob"), ("authId", Value.vNum 0)] = false
    ∧ isValidRecord requiredFields
        (setKey [("name", Value.vStr "Bob"), ("authId", Value.vNum 0)]
          "authId" Value.vNull) = false
    ∧ truthy (Value.vStr "") = false ∧ truthy (Value.vNum 0) = false
    ∧ truthy (Value.vBool false) = false ∧ truthy Value.vNull = false :=
  c10_theorem requiredFields [("name", Value.vStr "Bob"), ("authId", Value.vNum 0)]
    "authId" (Value.vNum 0) (by decide) (by decide) (by decide)

end Pipeline
